import Mathlib

/-!
Verification of the KaraOneTools core pipeline (segmentation, dyadic wavelet
decomposition shape bookkeeping, robust-scaling normalization, augmentation)
against a shallow embedding of the Python sources `split.py`, `wavelet.py`
and `augmentation.py`.

Sample values are modelled as rationals, tensors as nested lists
(trials × channels × samples), fallible code as `Except String`.
-/

deriving instance DecidableEq for Except

/-- Python slice `xs[a:b]` for a non-negative slice bounds `a`, `b`
(as used in `split.py` line 183, `self.raw[channel_index][0][0][start_epoch:end_epoch]`):
drop the first `a` elements and keep at most `b - a` of the rest; a slice that
runs past the end of the list is silently truncated, and `b ≤ a` gives `[]`. -/
def npSlice (xs : List ℚ) (a b : ℕ) : List ℚ :=
  (xs.drop a).take (b - a)

/-- NumPy assignment `EEG[i, c, 0:k] = seg` into a zero row of length `dur`
(`split.py` line 183).  The left slice `0:k` has length `min k dur`; the
assignment broadcasts only when the right-hand side has exactly that length,
otherwise NumPy raises a broadcast error.  On success the row holds `seg`
followed by the untouched zero padding. -/
def assignSlot (dur : ℕ) (seg : List ℚ) (k : ℕ) : Except String (List ℚ) :=
  if seg.length = min k dur then
    .ok (seg.take dur ++ List.replicate (dur - seg.length) 0)
  else
    .error "could not broadcast input array"

/-- The per-trial window computation of `SplitData.split`
(`split.py` lines 163-173): `start_epoch` is the epoch-index-table start plus
`offset = int(sfreq / 2)`; `end_epoch` is the table end plus the offset when
`duration_time == 5000` (the sentinel), `start + duration` when
`0 < duration_time < 5000`, and otherwise a `ValueError` is raised. -/
def windowBounds (sfreq tStart tEnd : ℕ) (d : ℤ) : Except String (ℕ × ℕ) :=
  let offset := sfreq / 2
  let startEpoch := tStart + offset
  if d = 5000 then
    .ok (startEpoch, tEnd + offset)
  else if 0 < d ∧ d < 5000 then
    .ok (startEpoch, startEpoch + d.toNat)
  else
    .error "duration_time must be less than 5000"

/-- The body of the channel loop of `SplitData.split` (`split.py` line 183):
copy the recording samples in `[s, e)` into the trial's zero row of
capacity `dur`. -/
def splitTrialRow (samples : List ℚ) (dur s e : ℕ) : Except String (List ℚ) :=
  assignSlot dur (npSlice samples s e) (e - s)

/-- Sequence a fallible map over a list, stopping at the first error: the
shape of every Python `for` loop in the embedding whose body may raise. -/
def exceptMapM (f : α → Except String β) : List α → Except String (List β)
  | [] => .ok []
  | x :: xs =>
    match f x with
    | .error e => .error e
    | .ok y =>
      match exceptMapM f xs with
      | .error e => .error e
      | .ok ys => .ok (y :: ys)

/-- The method `SplitData.split` (`split.py` lines 150-196): allocate
`np.zeros((len(targets), len(raw.ch_names), duration_time))` — which NumPy
rejects for a negative `duration_time` — then for each trial (driven by
`enumerate(self.targets)`) resolve the window from the epoch index table
entry and copy every channel's slice into the trial's slot.  The duration
check happens inside the per-trial loop, so a run with zero trials never
reaches it. -/
def splitData (targets : List String) (tbl : List (ℕ × ℕ))
    (raw : List (List ℚ)) (sfreq : ℕ) (d : ℤ) :
    Except String (List (List (List ℚ))) :=
  if d < 0 then
    .error "negative dimensions are not allowed"
  else
    exceptMapM (fun i =>
      match tbl[i]? with
      | none => .error "index 0 is out of bounds"
      | some p =>
        match windowBounds sfreq p.1 p.2 d with
        | .error e => .error e
        | .ok se => exceptMapM (fun samples => splitTrialRow samples d.toNat se.1 se.2) raw)
      (List.range targets.length)

/-- The `type_action` validation of `SplitData.__init__`
(`split.py` lines 46-49), which runs before any of the loading steps
(`_load_epochs_`, `_load_targets_`, `_load_raw_`); the boolean argument
stands for whether those later loading steps would succeed. -/
def splitDataInit (typeAction : String) (loadOk : Bool) : Except String String :=
  if typeAction = "clearing_inds" ∨ typeAction = "thinking_inds" then
    if loadOk then .ok typeAction else .error "epoch_inds.mat not found"
  else
    .error ("type_action " ++ typeAction ++ " not supported on this dataset")

/-- The helper `_calc_shape_` of `Wavelet.apply` (`wavelet.py` lines 102-110): apply
`num_samples = math.ceil(num_samples / 2)` exactly `times` times; on naturals
`ceil(n / 2) = (n + 1) / 2`. -/
def calcShape (numSamples : ℕ) : ℕ → ℕ
  | 0 => numSamples
  | t + 1 => calcShape ((numSamples + 1) / 2) t

/-- NumPy transpose of a 2-D array, as used by `trail.T` and `.T` in
`wavelet.py` lines 128-130. -/
def transposeM (m : List (List ℚ)) : List (List ℚ) :=
  m.transpose

/-- `np.abs` on one value: the magnitude of a coefficient. -/
def ratAbs (v : ℚ) : ℚ :=
  if v < 0 then -v else v

/-- Elementwise `np.abs` on a 2-D array (`wavelet.py` line 130). -/
def matAbs (m : List (List ℚ)) : List (List ℚ) :=
  m.map (fun r => r.map ratAbs)

/-- A 2-D array has NumPy shape `(a, b)`. -/
def isMatShape (m : List (List ℚ)) (a b : ℕ) : Bool :=
  m.length == a && m.all (fun r => r.length == b)

/-- The body of the per-trial loop of `Wavelet.apply` (`wavelet.py` lines
126-130).  `transform.forward(trail.T, nlevels=desc_level)` is the external
dtcwt primitive, modelled as an arbitrary function returning the tuple
`wavelet.highpasses` of per-level coefficient-magnitude matrices, each of
shape `(decimated_samples, channels)`.  The code indexes entry
`desc_level - 1`, applies `np.abs`, transposes back, and NumPy accepts the
assignment into the pre-allocated trial slot only when the block's shape
matches `(num_channels, resampling_shape)`. -/
def trialStep (transform : List (List ℚ) → List (List (List ℚ)))
    (descLevel numCh res : ℕ) (trail : List (List ℚ)) :
    Except String (List (List ℚ)) :=
  match (transform (transposeM trail))[descLevel - 1]? with
  | none => .error "tuple index out of range"
  | some hp =>
    if isMatShape (transposeM (matAbs hp)) numCh res then
      .ok (transposeM (matAbs hp))
    else .error "could not broadcast input array"

/-- Insert a value into a sorted list, keeping it sorted ascending. -/
def insertSorted (v : ℚ) : List ℚ → List ℚ
  | [] => [v]
  | x :: xs => if v ≤ x then v :: x :: xs else x :: insertSorted v xs

/-- Sort a list of rationals ascending (insertion sort); the ascending
rearrangement is unique as a multiset, so this agrees with `np.sort`. -/
def sortQ : List ℚ → List ℚ
  | [] => []
  | x :: xs => insertSorted x (sortQ xs)

/-- Linear-interpolation percentile of a sequence, NumPy's default
`np.percentile(xs, p)`: sort, take position `p * (n - 1) / 100`, and
interpolate between the two neighbouring order statistics.
`np.median` is the `p = 50` case. -/
def percentile (xs : List ℚ) (p : ℚ) : ℚ :=
  let s := sortQ xs
  if s.isEmpty then 0
  else
    let pos : ℚ := p * (s.length - 1) / 100
    let i : ℕ := (⌊pos⌋).toNat
    let a := s.getD i 0
    let b := s.getD (i + 1) a
    a + (pos - i) * (b - a)

/-- Models the pyts library call of `wavelet.py` lines 134-137:
`MultivariateTransformer(RobustScaler(), flatten=False)` applies one
`RobustScaler` to each channel's `(trials, timestamps)` slice, and the pyts
`RobustScaler` centers and scales **each sample (each single time series)
independently**, subtracting that series' own median and dividing by its own
quantile range (default quantiles 25 and 75).  This is the per-series
transform. -/
def scaleRow (xs : List ℚ) : List ℚ :=
  let m := percentile xs 50
  let q1 := percentile xs 25
  let q3 := percentile xs 75
  xs.map (fun v => (v - m) / (q3 - q1))

/-- One trial under the pyts robust scaling: every channel's series is scaled
independently. -/
def scaleTrial (trial : List (List ℚ)) : List (List ℚ) :=
  trial.map scaleRow

/-- The call `scaler.fit_transform(self.wavelet_array)` of `wavelet.py` line 137 under
the pyts semantics above: every `(trial, channel)` series is scaled by its own
statistics. -/
def scaleTensor (T : List (List (List ℚ))) : List (List (List ℚ)) :=
  T.map scaleTrial

/-- Modelled from the spec (for comparison with `scaleTensor`): "A robust
per-channel scaling statistic (median and inter-quantile spread) is fit
jointly across all trials for each channel, then applied to every trial's
corresponding channel" — pool every trial's series of a channel, fit one
median and one inter-quartile spread for that channel, and apply those
trial-invariant parameters to each trial. -/
def specJointScaleTensor (T : List (List (List ℚ))) : List (List (List ℚ)) :=
  let numCh := (T.headD []).length
  T.map (fun trial =>
    (List.range numCh).map (fun c =>
      let xs := T.flatMap (fun tr => tr.getD c [])
      let m := percentile xs 50
      let s := percentile xs 75 - percentile xs 25
      (trial.getD c []).map (fun v => (v - m) / s)))

/-- The method `Wavelet.apply` (`wavelet.py` lines 102-150, the `save=False` path):
compute `resampling_sahpe` once with `_calc_shape_`, allocate
`np.zeros((num_trails, num_channels, resampling_sahpe))`, overwrite every
trial slot via the per-trial loop, then — when `scale` is set — replace the
tensor by the pyts robust-scaled one. -/
def applyW (transform : List (List ℚ) → List (List (List ℚ)))
    (descLevel : ℕ) (EEG : List (List (List ℚ))) (scale : Bool) :
    Except String (List (List (List ℚ))) :=
  let numCh := (EEG.headD []).length
  let numSamples := ((EEG.headD []).headD []).length
  let res := calcShape numSamples descLevel
  match exceptMapM (trialStep transform descLevel numCh res) EEG with
  | .error e => .error e
  | .ok arr => .ok (if scale then scaleTensor arr else arr)

/-- The dimensionality guard of `Wavelet._load_data_` (`wavelet.py` lines
87-88): `len(self.EEG.shape) != 3` selects the error branch. -/
def loadDimErrorBranch (shape : List ℕ) : Bool :=
  shape.length != 3

/-- Elementwise addition of a noise array of the same shape
(`temp_array = array + np.random.normal(...)`, `augmentation.py` line 88). -/
def matAdd (a b : List (List ℚ)) : List (List ℚ) :=
  a.zipWith (fun r s => r.zipWith (fun u v => u + v) s) b

/-- The product `np.multiply(array, factor[:, np.newaxis, :])` of `augmentation.py`
lines 143-144: the per-timestamp factor row is broadcast over channels. -/
def scaleMulTrial (a : List (List ℚ)) (factor : List ℚ) : List (List ℚ) :=
  a.map (fun row => row.zipWith (fun u v => u * v) factor)

/-- The method `DataAugmentation.jitter` (`augmentation.py` lines 56-100) for a
constructed instance with inputs `x` (trials), `y` (labels, same length as
`x` per the constructor check) and `augmentation_factor = k`.  The method
fills a pre-allocated buffer of `k * n + n` slots: the first `n` slots get
the unmodified inputs, labels, and the tag "original"; the remaining `k * n`
slots are filled sequentially, one pass per sigma, with noise-added copies.
The Gaussian draw and the `'{:.1e}'.format(sigma)` float formatting are
modelled by the parameters `noise` and `sigmaTag`. -/
def jitterAug (x : List (List (List ℚ))) (y : List String) (k : ℕ)
    (noise : ℕ → ℕ → List (List ℚ)) (sigmaTag : ℕ → String) :
    List (List (List ℚ)) × List String × List String :=
  let pairs := x.zip y
  ( x ++ (List.range k).flatMap (fun s =>
      pairs.enum.map (fun jp => matAdd jp.2.1 (noise s jp.1)))
  , y ++ (List.range k).flatMap (fun _ => pairs.map (fun p => p.2))
  , List.replicate x.length "original" ++ (List.range k).flatMap (fun s =>
      pairs.map (fun p => sigmaTag s ++ "__target_" ++ p.2)) )

/-- The method `DataAugmentation.scaling` (`augmentation.py` lines 102-152), same buffer
discipline as `jitterAug` but with a multiplicative per-timestamp factor row
(`np.random.normal(loc=1, scale=sigma, size=(1, timestamps))`), modelled by
the parameter `factor`. -/
def scalingAug (x : List (List (List ℚ))) (y : List String) (k : ℕ)
    (factor : ℕ → ℕ → List ℚ) (sigmaTag : ℕ → String) :
    List (List (List ℚ)) × List String × List String :=
  let pairs := x.zip y
  ( x ++ (List.range k).flatMap (fun s =>
      pairs.enum.map (fun jp => scaleMulTrial jp.2.1 (factor s jp.1)))
  , y ++ (List.range k).flatMap (fun _ => pairs.map (fun p => p.2))
  , List.replicate x.length "original" ++ (List.range k).flatMap (fun s =>
      pairs.map (fun p => sigmaTag s ++ "__target_" ++ p.2)) )

/-- The tensor (or 3-D list) `T` has shape `(a, b, c)`. -/
def isShape3 (T : List (List (List ℚ))) (a b c : ℕ) : Prop :=
  T.length = a ∧ ∀ t ∈ T, t.length = b ∧ ∀ r ∈ t, r.length = c

/-- Number of trailing zero samples of a tensor row. -/
def countTrailingZeros (l : List ℚ) : ℕ :=
  (l.reverse.takeWhile (fun v => v == 0)).length


/-! ## Helper lemmas -/

theorem ceil_half_nat (m : ℕ) : ⌈(m : ℚ) / 2⌉₊ = (m + 1) / 2 := by
  rcases Nat.even_or_odd m with ⟨k, hk⟩ | ⟨k, hk⟩
  · subst hk
    have h : ((k + k : ℕ) : ℚ) / 2 = (k : ℚ) := by push_cast; ring
    rw [h, Nat.ceil_natCast]
    omega
  · subst hk
    have h : ((2 * k + 1 : ℕ) : ℚ) / 2 = (k : ℚ) + 1 / 2 := by push_cast; ring
    rw [h]
    have h2 : ⌈(k : ℚ) + 1 / 2⌉₊ = k + 1 := by
      rw [Nat.ceil_eq_iff (by omega)]
      constructor
      · push_cast; linarith
      · push_cast; linarith
    rw [h2]
    omega

theorem exceptMapM_ok_forall₂ {α β : Type} {f : α → Except String β}
    {l : List α} {out : List β} (h : exceptMapM f l = .ok out) :
    List.Forall₂ (fun a b => f a = .ok b) l out := by
  induction l generalizing out with
  | nil =>
    unfold exceptMapM at h
    cases h
    exact List.Forall₂.nil
  | cons x xs ih =>
    unfold exceptMapM at h
    cases hx : f x with
    | error e => rw [hx] at h; cases h
    | ok y =>
      rw [hx] at h
      cases hxs : exceptMapM f xs with
      | error e => rw [hxs] at h; cases h
      | ok ys =>
        rw [hxs] at h
        cases h
        exact List.Forall₂.cons hx (ih hxs)

theorem takeWhile_replicate_append {p : ℚ → Bool} {a : ℚ} (h : p a = true)
    (n : ℕ) (l : List ℚ) :
    (List.replicate n a ++ l).takeWhile p = List.replicate n a ++ l.takeWhile p := by
  induction n with
  | zero => simp
  | succ m ih => simp [List.replicate_succ, List.takeWhile_cons, h, ih]

theorem takeWhile_replicate_neg {p : ℚ → Bool} {a : ℚ} (h : p a = false) (n : ℕ) :
    (List.replicate n a).takeWhile p = [] := by
  cases n with
  | zero => rfl
  | succ m => simp [List.replicate_succ, List.takeWhile_cons, h]

theorem countTrailingZeros_pad (n m : ℕ) :
    countTrailingZeros (List.replicate n 1 ++ List.replicate m 0) = m := by
  unfold countTrailingZeros
  rw [List.reverse_append, List.reverse_replicate, List.reverse_replicate]
  rw [takeWhile_replicate_append (by decide)]
  rw [takeWhile_replicate_neg (by decide)]
  simp

/-! ## Claim theorems -/

/-- C2: for every decomposition depth `L` and window length `n`, the
pre-allocation length computed by `_calc_shape_` equals the dyadic halving
rule `n ← ⌈n / 2⌉` applied exactly `L` times, and `n = 4400`, `L = 6`
yields `69`. -/
theorem c2_decimated_length :
    (∀ (n L : ℕ), calcShape n L = (fun m => ⌈(m : ℚ) / 2⌉₊)^[L] n) ∧
    calcShape 4400 6 = 69 := by
  constructor
  · intro n L
    induction L generalizing n with
    | zero => rfl
    | succ t ih =>
      have hstep : calcShape n (t + 1) = calcShape ((n + 1) / 2) t := rfl
      rw [hstep, ih ((n + 1) / 2), Function.iterate_succ_apply]
      congr 1
      exact (ceil_half_nat n).symm
  · decide

/-- C9: the dimensionality guard of `Wavelet._load_data_` takes the error
branch exactly when the loaded EEG array is not 3-dimensional: it fires on a
2-dimensional shape such as `[165, 62]` and passes every 3-dimensional
shape.  (In the source the raise itself is broken: the message interpolates
the nonexistent attribute `self.data`, so the branch actually raises
`AttributeError`, not the documented `ValueError`.) -/
theorem c9_dim_guard :
    loadDimErrorBranch [165, 62] = true ∧
    ∀ a b c : ℕ, loadDimErrorBranch [a, b, c] = false := by
  exact ⟨rfl, fun a b c => rfl⟩

/-- C8: any `type_action` other than the two supported tags makes
`SplitData.__init__` fail with the `InvalidKey` error, independently of the
state of the backing files (the check precedes every load, and `__init__`
allocates no tensor). -/
theorem c8_invalid_action_tag (t : String) (loadOk : Bool)
    (h1 : t ≠ "clearing_inds") (h2 : t ≠ "thinking_inds") :
    splitDataInit t loadOk =
      .error ("type_action " ++ t ++ " not supported on this dataset") := by
  unfold splitDataInit
  rw [if_neg]
  rintro (hc | hc)
  · exact h1 hc
  · exact h2 hc

theorem c8_invalid_action_tag_witness :
    ("unknown_inds" ≠ "clearing_inds") ∧ ("unknown_inds" ≠ "thinking_inds") ∧
    splitDataInit "unknown_inds" true =
      .error ("type_action " ++ "unknown_inds" ++ " not supported on this dataset") :=
  ⟨by decide, by decide,
    c8_invalid_action_tag "unknown_inds" true (by decide) (by decide)⟩

/-- C1: for `0 < duration < 5000`, the trial window is
`[table_start + sfreq/2, table_start + sfreq/2 + duration)`, the copied
segment is exactly the recording slice over that window, its length is
exactly `duration` (no zero padding), and the concrete scenario
`sfreq = 500`, `table start = 10000`, `duration = 4400` gives the window
`[10250, 14650)`. -/
theorem c1_fixed_duration_window (sfreq tStart tEnd : ℕ) (d : ℤ)
    (samples : List ℚ) (hd1 : 0 < d) (hd2 : d < 5000)
    (hlen : tStart + sfreq / 2 + d.toNat ≤ samples.length) :
    windowBounds sfreq tStart tEnd d =
      .ok (tStart + sfreq / 2, tStart + sfreq / 2 + d.toNat) ∧
    splitTrialRow samples d.toNat (tStart + sfreq / 2)
        (tStart + sfreq / 2 + d.toNat) =
      .ok (npSlice samples (tStart + sfreq / 2) (tStart + sfreq / 2 + d.toNat)) ∧
    (npSlice samples (tStart + sfreq / 2) (tStart + sfreq / 2 + d.toNat)).length
      = d.toNat ∧
    windowBounds 500 10000 tEnd 4400 = .ok (10250, 14650) := by
  have hne : d ≠ 5000 := by omega
  have hseg : (npSlice samples (tStart + sfreq / 2)
      (tStart + sfreq / 2 + d.toNat)).length = d.toNat := by
    unfold npSlice
    rw [List.length_take, List.length_drop]
    omega
  refine ⟨?_, ?_, hseg, ?_⟩
  · unfold windowBounds
    rw [if_neg hne, if_pos ⟨hd1, hd2⟩]
  · unfold splitTrialRow assignSlot
    have hk : tStart + sfreq / 2 + d.toNat - (tStart + sfreq / 2) = d.toNat := by
      omega
    rw [hk, hseg, min_self, if_pos rfl, Nat.sub_self, List.replicate_zero,
      List.append_nil, List.take_of_length_le (le_of_eq hseg)]
  · norm_num [windowBounds]
    decide

theorem c1_fixed_duration_window_witness :
    (0 < (1 : ℤ)) ∧ ((1 : ℤ) < 5000) ∧
    (0 + 0 / 2 + (1 : ℤ).toNat ≤ ([0] : List ℚ).length) ∧
    (windowBounds 0 0 0 1 = .ok (0, 1) ∧
     splitTrialRow [0] 1 0 1 = .ok (npSlice [0] 0 1) ∧
     (npSlice ([0] : List ℚ) 0 1).length = 1 ∧
     windowBounds 500 10000 0 4400 = .ok (10250, 14650)) :=
  ⟨by decide, by decide, by decide,
    c1_fixed_duration_window 0 0 0 1 [0] (by decide) (by decide) (by decide)⟩

/-- C7 counterexample: a duration strictly above the sentinel does not make
`split` fail when there are zero trials — the duration check sits inside the
per-trial loop, so `split` returns an empty tensor successfully, refuting
"for every duration > 5000 segmentation fails ... before any computation
begins". -/
theorem c7_counterexample :
    (5000 : ℤ) < 6000 ∧ splitData [] [] [] 500 6000 = .ok [] := by
  constructor
  · decide
  · decide

/-- C7 (amended): provided at least one trial (and one epoch-index entry)
exists, any requested duration `d > 5000` or `d ≤ 0` makes `split` fail with
a `ValueError`; the check is performed inside the per-trial loop (after the
output tensor allocation), so with zero trials no error is raised. -/
theorem c7_out_of_range_duration (targets : List String) (tbl : List (ℕ × ℕ))
    (raw : List (List ℚ)) (sfreq : ℕ) (d : ℤ)
    (ht : targets ≠ []) (htbl : tbl ≠ []) (hd : 5000 < d ∨ d ≤ 0) :
    ∃ msg, splitData targets tbl raw sfreq d = .error msg := by
  unfold splitData
  by_cases hneg : d < 0
  · rw [if_pos hneg]
    exact ⟨_, rfl⟩
  · rw [if_neg hneg]
    have h5 : d ≠ 5000 := by omega
    have h6 : ¬(0 < d ∧ d < 5000) := by omega
    cases targets with
    | nil => exact absurd rfl ht
    | cons a as =>
      cases tbl with
      | nil => exact absurd rfl htbl
      | cons p ps =>
        refine ⟨"duration_time must be less than 5000", ?_⟩
        simp only [List.length_cons, List.range_succ_eq_map]
        unfold exceptMapM
        simp only [List.getElem?_cons_zero]
        unfold windowBounds
        simp only [if_neg h5, if_neg h6]

theorem c7_out_of_range_duration_witness :
    (["a"] : List String) ≠ [] ∧ ([((0 : ℕ), (0 : ℕ))] : List (ℕ × ℕ)) ≠ [] ∧
    ((5000 : ℤ) < 6000 ∨ (6000 : ℤ) ≤ 0) ∧
    ∃ msg, splitData ["a"] [(0, 0)] [] 500 6000 = .error msg :=
  ⟨by decide, by decide, Or.inl (by decide),
    c7_out_of_range_duration ["a"] [(0, 0)] [] 500 6000 (by decide) (by decide)
      (Or.inl (by decide))⟩

theorem splitTrialRow_replicate_span (span pad total s e : ℕ)
    (hpad : pad = 5000 - span) (hspan : span ≤ 5000)
    (he : e = s + span) (htot : total = e) :
    splitTrialRow (List.replicate total 1) 5000 s e =
      .ok (List.replicate span 1 ++ List.replicate pad 0) := by
  subst htot he
  unfold splitTrialRow npSlice assignSlot
  rw [List.drop_replicate, List.take_replicate]
  have h1 : s + span - s = span := by omega
  rw [h1, min_self, List.length_replicate]
  rw [show span ⊓ 5000 = span from by omega]
  rw [if_pos rfl, List.take_replicate]
  rw [show (5000 : ℕ) ⊓ span = span from by omega]
  rw [hpad]

/-- C4 counterexample: in sentinel mode (`duration = 5000`), a trial whose
epoch-index interval spans 4300 samples gets a tensor row with exactly
**700** trailing zero samples, not the 500 the claim states (capacity 5000
minus active length 4300). -/
theorem c4_counterexample :
    windowBounds 500 0 4300 5000 = .ok (250, 4550) ∧
    splitTrialRow (List.replicate 4550 1) 5000 250 4550 =
      .ok (List.replicate 4300 1 ++ List.replicate 700 0) ∧
    countTrailingZeros (List.replicate 4300 1 ++ List.replicate 700 0) = 700 ∧
    (700 : ℕ) ≠ 500 := by
  exact ⟨by decide,
    splitTrialRow_replicate_span 4300 700 4550 250 4550
      (by omega) (by omega) (by omega) (by omega),
    countTrailingZeros_pad 4300 700, by decide⟩

/-- C4 (amended): in sentinel mode each trial's window end comes from the
epoch index table's own end value (shifted, like the start, by the fixed
offset), active lengths are per trial, and each row is right-padded with
zeros up to capacity 5000; a trial spanning 4300 samples has exactly **700**
trailing zero samples and one spanning 4800 has 200. -/
theorem c4_sentinel_variable_windows (sfreq tStart tEnd : ℕ)
    (samples : List ℚ) (hst : tStart ≤ tEnd) (hspan : tEnd - tStart ≤ 5000)
    (hlen : tEnd + sfreq / 2 ≤ samples.length) :
    windowBounds sfreq tStart tEnd 5000 =
      .ok (tStart + sfreq / 2, tEnd + sfreq / 2) ∧
    splitTrialRow samples 5000 (tStart + sfreq / 2) (tEnd + sfreq / 2) =
      .ok (npSlice samples (tStart + sfreq / 2) (tEnd + sfreq / 2) ++
        List.replicate (5000 - (tEnd - tStart)) 0) ∧
    (npSlice samples (tStart + sfreq / 2) (tEnd + sfreq / 2)).length
      = tEnd - tStart ∧
    splitTrialRow (List.replicate 4550 1) 5000 250 4550 =
      .ok (List.replicate 4300 1 ++ List.replicate 700 0) ∧
    countTrailingZeros (List.replicate 4300 1 ++ List.replicate 700 0) = 700 ∧
    splitTrialRow (List.replicate 5050 1) 5000 250 5050 =
      .ok (List.replicate 4800 1 ++ List.replicate 200 0) ∧
    countTrailingZeros (List.replicate 4800 1 ++ List.replicate 200 0) = 200 := by
  have hseg : (npSlice samples (tStart + sfreq / 2) (tEnd + sfreq / 2)).length
      = tEnd - tStart := by
    unfold npSlice
    rw [List.length_take, List.length_drop]
    omega
  refine ⟨?_, ?_, hseg, ?_, countTrailingZeros_pad 4300 700, ?_,
    countTrailingZeros_pad 4800 200⟩
  · unfold windowBounds
    rw [if_pos rfl]
  · unfold splitTrialRow assignSlot
    have hk : tEnd + sfreq / 2 - (tStart + sfreq / 2) = tEnd - tStart := by
      omega
    rw [hk]
    rw [show min (tEnd - tStart) 5000 = tEnd - tStart by omega]
    rw [if_pos hseg, hseg]
    rw [List.take_of_length_le (by omega : (npSlice samples (tStart + sfreq / 2)
      (tEnd + sfreq / 2)).length ≤ 5000)]
  · exact splitTrialRow_replicate_span 4300 700 4550 250 4550
      (by omega) (by omega) (by omega) (by omega)
  · exact splitTrialRow_replicate_span 4800 200 5050 250 5050
      (by omega) (by omega) (by omega) (by omega)

theorem c4_sentinel_variable_windows_witness :
    (0 ≤ 1) ∧ (1 - 0 ≤ 5000) ∧ (1 + 0 / 2 ≤ ([1] : List ℚ).length) ∧
    (windowBounds 0 0 1 5000 = .ok (0 + 0 / 2, 1 + 0 / 2) ∧
     splitTrialRow [1] 5000 (0 + 0 / 2) (1 + 0 / 2) =
       .ok (npSlice [1] (0 + 0 / 2) (1 + 0 / 2) ++
         List.replicate (5000 - (1 - 0)) 0) ∧
     (npSlice ([1] : List ℚ) (0 + 0 / 2) (1 + 0 / 2)).length = 1 - 0 ∧
     splitTrialRow (List.replicate 4550 1) 5000 250 4550 =
       .ok (List.replicate 4300 1 ++ List.replicate 700 0) ∧
     countTrailingZeros (List.replicate 4300 1 ++ List.replicate 700 0) = 700 ∧
     splitTrialRow (List.replicate 5050 1) 5000 250 5050 =
       .ok (List.replicate 4800 1 ++ List.replicate 200 0) ∧
     countTrailingZeros (List.replicate 4800 1 ++ List.replicate 200 0) = 200) :=
  ⟨by decide, by decide, by decide,
    c4_sentinel_variable_windows 0 0 1 [1] (by decide) (by decide) (by decide)⟩

theorem scaleRow_length (xs : List ℚ) : (scaleRow xs).length = xs.length := by
  simp [scaleRow]

theorem isShape3_scaleTensor {T : List (List (List ℚ))} {a b c : ℕ}
    (h : isShape3 T a b c) : isShape3 (scaleTensor T) a b c := by
  obtain ⟨h1, h2⟩ := h
  constructor
  · simp [scaleTensor, h1]
  · intro t ht
    simp only [scaleTensor, List.mem_map] at ht
    obtain ⟨t0, ht0, rfl⟩ := ht
    obtain ⟨hl, hr⟩ := h2 t0 ht0
    constructor
    · simp [scaleTrial, hl]
    · intro r hr2
      simp only [scaleTrial, List.mem_map] at hr2
      obtain ⟨r0, hr0, rfl⟩ := hr2
      rw [scaleRow_length]
      exact hr r0 hr0

theorem trialStep_ok_shape {f : List (List ℚ) → List (List (List ℚ))}
    {L nc rs : ℕ} {tr b : List (List ℚ)}
    (h : trialStep f L nc rs tr = .ok b) :
    b.length = nc ∧ ∀ r ∈ b, r.length = rs := by
  unfold trialStep at h
  split at h
  · cases h
  · split at h
    · injection h with h
      subst h
      rename_i hs
      unfold isMatShape at hs
      simp only [Bool.and_eq_true, beq_iff_eq, List.all_eq_true] at hs
      exact ⟨hs.1, fun r hr => hs.2 r hr⟩
    · cases h

theorem forall₂_trialStep_shape {f : List (List ℚ) → List (List (List ℚ))}
    {L nc rs : ℕ} {l out : List (List (List ℚ))}
    (h : List.Forall₂ (fun tr slot => trialStep f L nc rs tr = .ok slot) l out) :
    ∀ t ∈ out, t.length = nc ∧ ∀ r ∈ t, r.length = rs := by
  induction h with
  | nil => intro t ht; cases ht
  | cons hR hrest ih =>
    intro t ht
    rcases List.mem_cons.mp ht with rfl | hmem
    · exact trialStep_ok_shape hR
    · exact ih t hmem

/-- C5: for every trial, the block written into the output tensor's trial
slot is the elementwise absolute value of the highpass detail coefficients
at the **terminal** level (the last entry of `highpasses`, i.e. index
`desc_level - 1`) of the depth-`L` decomposition of the trial's
`(samples, channels)`-transposed block, transposed back; and every trial
slot of a successful `apply` run (before the optional scaling) is produced
by exactly this per-trial step. -/
theorem c5_terminal_highpass (transform : List (List ℚ) → List (List (List ℚ)))
    (descLevel numCh res : ℕ) (trail out : List (List ℚ))
    (EEG outT : List (List (List ℚ)))
    (hL : 1 ≤ descLevel)
    (hlen : (transform (transposeM trail)).length = descLevel)
    (hstep : trialStep transform descLevel numCh res trail = .ok out)
    (happly : applyW transform descLevel EEG false = .ok outT) :
    out = transposeM (matAbs ((transform (transposeM trail)).getLastD [])) ∧
    List.Forall₂ (fun tr slot =>
      trialStep transform descLevel (EEG.headD []).length
        (calcShape ((EEG.headD []).headD []).length descLevel) tr = .ok slot)
      EEG outT := by
  constructor
  · have hne : transform (transposeM trail) ≠ [] := by
      intro hnil
      rw [hnil] at hlen
      simp at hlen
      try omega
    have hidx : (transform (transposeM trail))[descLevel - 1]? =
        some ((transform (transposeM trail)).getLastD []) := by
      rw [List.getLastD_eq_getLast?, List.getLast?_eq_getElem?, ← hlen]
      have hpos : 0 < (transform (transposeM trail)).length :=
        List.length_pos.mpr hne
      rw [List.getElem?_eq_getElem (by omega)]
      simp [Option.getD]
    unfold trialStep at hstep
    rw [hidx] at hstep
    split at hstep
    · cases hstep
    · rename_i hp0 heq
      injection heq with heq
      subst heq
      split at hstep
      · injection hstep with hstep
        exact hstep.symm
      · cases hstep
  · simp only [applyW] at happly
    cases harr : exceptMapM (trialStep transform descLevel
        (EEG.headD []).length
        (calcShape ((EEG.headD []).headD []).length descLevel)) EEG with
    | error e => rw [harr] at happly; cases happly
    | ok arr =>
      rw [harr] at happly
      simp only [Bool.false_eq_true, if_false] at happly
      injection happly with happly
      subst happly
      exact exceptMapM_ok_forall₂ harr

/-- A stub one-level transform used to exercise the embedding on concrete
input: its single highpass matrix holds one coefficient for one channel. -/
def toyTransform : List (List ℚ) → List (List (List ℚ)) :=
  fun _ => [[[-2]]]

theorem c5_terminal_highpass_witness :
    1 ≤ 1 ∧
    (toyTransform (transposeM [[5]])).length = 1 ∧
    trialStep toyTransform 1 1 1 [[5]] = .ok [[2]] ∧
    applyW toyTransform 1 [[[5]]] false = .ok [[[2]]] ∧
    ([[2]] = transposeM (matAbs ((toyTransform (transposeM [[5]])).getLastD [])) ∧
     List.Forall₂ (fun tr slot =>
       trialStep toyTransform 1 ([[[5]]].headD []).length
         (calcShape (([[[5]]].headD []).headD []).length 1) tr = .ok slot)
       [[[5]]] [[[2]]]) :=
  ⟨by decide, by decide, by decide, by decide,
    c5_terminal_highpass toyTransform 1 1 1 [[5]] [[2]] [[[5]]] [[[2]]]
      (by decide) (by decide) (by decide) (by decide)⟩

/-- C6: whenever `Wavelet.apply` succeeds — with or without the optional
normalization — the decimated tensor's shape is
`(trials of the segmented tensor, channels of the segmented tensor,
analytic decimated length)`. -/
theorem c6_shape_invariant (transform : List (List ℚ) → List (List (List ℚ)))
    (descLevel : ℕ) (EEG outT : List (List (List ℚ))) (scale : Bool)
    (h : applyW transform descLevel EEG scale = .ok outT) :
    isShape3 outT EEG.length (EEG.headD []).length
      (calcShape ((EEG.headD []).headD []).length descLevel) := by
  simp only [applyW] at h
  cases harr : exceptMapM (trialStep transform descLevel
      (EEG.headD []).length
      (calcShape ((EEG.headD []).headD []).length descLevel)) EEG with
  | error e => rw [harr] at h; cases h
  | ok arr =>
    rw [harr] at h
    injection h with h
    subst h
    have hf := exceptMapM_ok_forall₂ harr
    have hsh : isShape3 arr EEG.length (EEG.headD []).length
        (calcShape ((EEG.headD []).headD []).length descLevel) :=
      ⟨hf.length_eq.symm, forall₂_trialStep_shape hf⟩
    cases scale with
    | false => simpa using hsh
    | true => simpa using isShape3_scaleTensor hsh

theorem c6_shape_invariant_witness :
    applyW toyTransform 1 [[[5]]] false = .ok [[[2]]] ∧
    isShape3 [[[2]]] ([[[5]]].length) (([[[5]]].headD []).length)
      (calcShape (([[[5]]].headD []).headD []).length 1) :=
  ⟨by decide, c6_shape_invariant toyTransform 1 [[[5]]] [[[2]]] false (by decide)⟩

theorem int_toNat_zero : (0 : ℤ).toNat = 0 := rfl

theorem int_toNat_one : (1 : ℤ).toNat = 1 := rfl

theorem int_toNat_two : (2 : ℤ).toNat = 2 := rfl

theorem scaleTensor_getD (T : List (List (List ℚ))) (j : ℕ) :
    (scaleTensor T).getD j [] = scaleTrial (T.getD j []) := by
  induction T generalizing j with
  | nil => cases j <;> simp [scaleTensor, scaleTrial]
  | cons t ts ih =>
    cases j with
    | zero => simp [scaleTensor]
    | succ m =>
      simp only [scaleTensor, List.map_cons, List.getD_cons_succ]
      exact ih m

theorem scaleTrial_getD (t : List (List ℚ)) (c : ℕ) :
    (scaleTrial t).getD c [] = scaleRow (t.getD c []) := by
  induction t generalizing c with
  | nil => cases c <;> simp [scaleTrial, scaleRow, percentile, sortQ]
  | cons r rs ih =>
    cases c with
    | zero => simp [scaleTrial]
    | succ m =>
      simp only [scaleTrial, List.map_cons, List.getD_cons_succ]
      exact ih m

/-- C3 counterexample: the normalization actually performed by the code
(pyts `RobustScaler` inside `MultivariateTransformer`) disagrees with the
spec-described per-channel jointly-fitted scaling on the concrete tensor
`[[[0, 1]], [[5, 6]]]` (2 trials, 1 channel, 2 samples): the code maps the
two *different* trials `[0, 1]` and `[5, 6]` to the *same* output `[-1, 1]`
(each series is scaled by its own median/IQR), which no trial-invariant
channel-wide affine scaling can do, and its output differs from the jointly
fitted one. -/
theorem c3_counterexample :
    scaleTensor [[[0, 1]], [[5, 6]]] ≠ specJointScaleTensor [[[0, 1]], [[5, 6]]] ∧
    scaleTensor [[[0, 1]], [[5, 6]]] = [[[-1, 1]], [[-1, 1]]] ∧
    ([[(0 : ℚ), 1]] : List (List ℚ)) ≠ [[5, 6]] := by
  have e1 : scaleTensor [[[0, 1]], [[5, 6]]] = [[[-1, 1]], [[-1, 1]]] := by
    norm_num [scaleTensor, scaleTrial, scaleRow, percentile, sortQ, insertSorted,
      List.isEmpty_cons, int_toNat_zero, int_toNat_one, int_toNat_two]
  have e2 : specJointScaleTensor [[[0, 1]], [[5, 6]]] =
      [[[-(2 / 3), -(4 / 9)]], [[4 / 9, 2 / 3]]] := by
    norm_num [specJointScaleTensor, percentile, sortQ, insertSorted, List.range_succ,
      List.isEmpty_cons, List.cons_ne_nil, int_toNat_zero, int_toNat_one,
      int_toNat_two]
  refine ⟨?_, e1, by norm_num⟩
  rw [e1, e2]
  intro h
  simp only [List.cons.injEq] at h
  have h2 := h.1.1.1
  norm_num at h2

/-- C3 (amended): the normalization scales each trial's each channel series
independently, with parameters fit from that series alone (per-trial,
per-channel — not trial-invariant); it is channel-local, and reordering the
trials before scaling and reading the slots back in the original order gives
the same result as scaling directly (trial-order independence). -/
theorem c3_per_series_scaling :
    (∀ (T : List (List (List ℚ))) (idx : List ℕ),
      scaleTensor (idx.map (fun j => T.getD j [])) =
        idx.map (fun j => (scaleTensor T).getD j [])) ∧
    (∀ (T : List (List (List ℚ))) (i c : ℕ),
      ((scaleTensor T).getD i []).getD c [] =
        scaleRow ((T.getD i []).getD c [])) := by
  constructor
  · intro T idx
    simp only [scaleTensor, List.map_map]
    apply List.map_congr_left
    intro j hj
    simp only [Function.comp]
    exact (scaleTensor_getD T j).symm
  · intro T i c
    rw [scaleTensor_getD, scaleTrial_getD]

theorem length_flatMap_range {β : Type} (g : ℕ → List β) (k m : ℕ)
    (h : ∀ s, (g s).length = m) :
    ((List.range k).flatMap g).length = k * m := by
  induction k with
  | zero => simp
  | succ t ih =>
    rw [List.range_succ, List.flatMap_append, List.length_append, ih]
    simp [List.flatMap, h t, Nat.succ_mul]

/-- C10: for a 3-D input of `n` trials, labels of the same length and any
augmentation factor `k ≥ 1`, both `jitter` and `scaling` return EEG, label
and identifier arrays of `(k + 1) * n` trials whose first `n` slots hold the
unmodified input trials, the input labels and the tag "original" — for every
realization of the random draws (`noise` / `factor`) and of the sigma
formatting. -/
theorem c10_augmentation_prefix (x : List (List (List ℚ))) (y : List String)
    (k : ℕ) (noise : ℕ → ℕ → List (List ℚ)) (factor : ℕ → ℕ → List ℚ)
    (tagJ tagS : ℕ → String)
    (hlen : y.length = x.length) (hk : 1 ≤ k) :
    ((jitterAug x y k noise tagJ).1.length = (k + 1) * x.length ∧
     (jitterAug x y k noise tagJ).2.1.length = (k + 1) * x.length ∧
     (jitterAug x y k noise tagJ).2.2.length = (k + 1) * x.length ∧
     (jitterAug x y k noise tagJ).1.take x.length = x ∧
     (jitterAug x y k noise tagJ).2.1.take x.length = y ∧
     (jitterAug x y k noise tagJ).2.2.take x.length =
       List.replicate x.length "original") ∧
    ((scalingAug x y k factor tagS).1.length = (k + 1) * x.length ∧
     (scalingAug x y k factor tagS).2.1.length = (k + 1) * x.length ∧
     (scalingAug x y k factor tagS).2.2.length = (k + 1) * x.length ∧
     (scalingAug x y k factor tagS).1.take x.length = x ∧
     (scalingAug x y k factor tagS).2.1.take x.length = y ∧
     (scalingAug x y k factor tagS).2.2.take x.length =
       List.replicate x.length "original") := by
  have hpairs : (x.zip y).length = x.length := by
    rw [List.length_zip, hlen, min_self]
  constructor
  · unfold jitterAug
    refine ⟨?_, ?_, ?_, ?_, ?_, ?_⟩
    · rw [List.length_append,
        length_flatMap_range _ k x.length (fun s => by simp [hpairs])]
      ring
    · rw [List.length_append,
        length_flatMap_range _ k x.length (fun s => by simp [hpairs]), hlen]
      ring
    · rw [List.length_append,
        length_flatMap_range _ k x.length (fun s => by simp [hpairs]),
        List.length_replicate]
      ring
    · exact List.take_left x _
    · exact List.take_left' hlen
    · exact List.take_left' (List.length_replicate _ _)
  · unfold scalingAug
    refine ⟨?_, ?_, ?_, ?_, ?_, ?_⟩
    · rw [List.length_append,
        length_flatMap_range _ k x.length (fun s => by simp [hpairs])]
      ring
    · rw [List.length_append,
        length_flatMap_range _ k x.length (fun s => by simp [hpairs]), hlen]
      ring
    · rw [List.length_append,
        length_flatMap_range _ k x.length (fun s => by simp [hpairs]),
        List.length_replicate]
      ring
    · exact List.take_left x _
    · exact List.take_left' hlen
    · exact List.take_left' (List.length_replicate _ _)

theorem c10_augmentation_prefix_witness :
    (["a"] : List String).length = ([[[1]]] : List (List (List ℚ))).length ∧
    1 ≤ 1 ∧
    (((jitterAug [[[1]]] ["a"] 1 (fun _ _ => [[0]]) (fun _ => "j")).1.length
        = (1 + 1) * 1 ∧
      (jitterAug [[[1]]] ["a"] 1 (fun _ _ => [[0]]) (fun _ => "j")).2.1.length
        = (1 + 1) * 1 ∧
      (jitterAug [[[1]]] ["a"] 1 (fun _ _ => [[0]]) (fun _ => "j")).2.2.length
        = (1 + 1) * 1 ∧
      (jitterAug [[[1]]] ["a"] 1 (fun _ _ => [[0]]) (fun _ => "j")).1.take 1
        = [[[1]]] ∧
      (jitterAug [[[1]]] ["a"] 1 (fun _ _ => [[0]]) (fun _ => "j")).2.1.take 1
        = ["a"] ∧
      (jitterAug [[[1]]] ["a"] 1 (fun _ _ => [[0]]) (fun _ => "j")).2.2.take 1
        = List.replicate 1 "original") ∧
     ((scalingAug [[[1]]] ["a"] 1 (fun _ _ => [0]) (fun _ => "s")).1.length
        = (1 + 1) * 1 ∧
      (scalingAug [[[1]]] ["a"] 1 (fun _ _ => [0]) (fun _ => "s")).2.1.length
        = (1 + 1) * 1 ∧
      (scalingAug [[[1]]] ["a"] 1 (fun _ _ => [0]) (fun _ => "s")).2.2.length
        = (1 + 1) * 1 ∧
      (scalingAug [[[1]]] ["a"] 1 (fun _ _ => [0]) (fun _ => "s")).1.take 1
        = [[[1]]] ∧
      (scalingAug [[[1]]] ["a"] 1 (fun _ _ => [0]) (fun _ => "s")).2.1.take 1
        = ["a"] ∧
      (scalingAug [[[1]]] ["a"] 1 (fun _ _ => [0]) (fun _ => "s")).2.2.take 1
        = List.replicate 1 "original")) :=
  ⟨by decide, by decide,
    c10_augmentation_prefix [[[1]]] ["a"] 1 (fun _ _ => [[0]]) (fun _ _ => [0])
      (fun _ => "j") (fun _ => "s") (by decide) (by decide)⟩
